import Mathlib

/-!
Verification development for the `autochektools` BigQuery/GCS gateway
(`src/autochektools/bigquery.py`).  Each Python method relevant to the
claims is shallowly embedded as a Lean function; remote services (the
BigQuery client, the storage client, `json.dumps`) are modelled as
explicit parameters, and observable side effects (executed queries, log
lines, sleeps, job reloads) are returned as explicit traces.
-/

/-! ## Python runtime values and `isinstance` semantics

`create_bigqueryschema` dispatches on `isinstance` checks over the
values of a sample row.  In Python, `bool` is a subclass of `int`, so
`isinstance(True, int)` is `True`; the embedding records that fact in
`isinstance_int`. -/

inductive PyVal where
  | pystr (s : String)
  | pyint (n : Int)
  | pybool (b : Bool)
  | pyfloat
  | pynone
  | pydict
  | pylist
  | pytuple
deriving DecidableEq

def isinstance_str : PyVal → Bool
  | .pystr _ => true
  | _ => false

def isinstance_dict : PyVal → Bool
  | .pydict => true
  | _ => false

def isinstance_list : PyVal → Bool
  | .pylist => true
  | _ => false

def isinstance_tuple : PyVal → Bool
  | .pytuple => true
  | _ => false

/-- `isinstance(v, int)`: true for `int` values and, because Python's
`bool` is a subclass of `int`, also for booleans. -/
def isinstance_int : PyVal → Bool
  | .pyint _ => true
  | .pybool _ => true
  | _ => false

/-! ## BigQuery schema fields -/

inductive BQFieldType where
  | STRING
  | INTEGER
deriving DecidableEq

/-- `bigquery.SchemaField(key, type)`; equality and hashing compare the
field contents, as in the vendor SDK. -/
structure SchemaField where
  name : String
  fieldType : BQFieldType
deriving DecidableEq

/-- Python runtime errors the embedded code can raise. -/
inductive PyError where
  | unboundLocalError
deriving DecidableEq

/-- Adding an element to a Python `set`: a no-op when an equal element
is already present.  Iteration order of the set is abstracted as
insertion order; the claims only use membership. -/
def setAdd (s : List SchemaField) (f : SchemaField) : List SchemaField :=
  if f ∈ s then s else s ++ [f]

/-- The `if / elif` chain of `create_bigqueryschema` for a single value:
`str`, `dict`, `list`, `tuple` map to STRING, `isinstance(v, int)`
(ints and bools) maps to INTEGER, anything else falls through with no
assignment. -/
def branchType (v : PyVal) : Option BQFieldType :=
  if isinstance_str v || isinstance_dict v || isinstance_list v || isinstance_tuple v then
    some BQFieldType.STRING
  else if isinstance_int v then
    some BQFieldType.INTEGER
  else
    none

/-- The body of `create_bigqueryschema`'s `for key in item.keys()` loop.
The second argument is the current binding of the local variable
`query_schema` (`none` = not yet assigned).  `schema.add(query_schema)`
executes on every iteration; when no branch has ever assigned
`query_schema`, Python raises `UnboundLocalError`. -/
def create_bigqueryschema_go :
    List (String × PyVal) → Option SchemaField → List SchemaField →
    Except PyError (List SchemaField)
  | [], _, schema => Except.ok schema
  | (key, v) :: rest, query_schema, schema =>
    let qs :=
      match branchType v with
      | some ty => some (SchemaField.mk key ty)
      | none => query_schema
    match qs with
    | none => Except.error PyError.unboundLocalError
    | some f => create_bigqueryschema_go rest (some f) (setAdd schema f)

/-- `BigQuery.create_bigqueryschema(item)`: a sample row is a Python
dict, embedded as its `item.keys()` iteration (key/value pairs in
order, keys unique). -/
def create_bigqueryschema (item : List (String × PyVal)) :
    Except PyError (List SchemaField) :=
  create_bigqueryschema_go item none []

/-- Reference accumulator for the schema set: insert the mapped field
of every mapped key, skip unmapped keys. -/
def goFold : List (String × PyVal) → List SchemaField → List SchemaField
  | [], acc => acc
  | (key, v) :: rest, acc =>
    match branchType v with
    | some ty => goFold rest (setAdd acc (SchemaField.mk key ty))
    | none => goFold rest acc

/-! ## Remote table state, `check_table`, `create_table` -/

structure TableId where
  dataset : String
  name : String
deriving DecidableEq

/-- The remote side's record of existing tables, with their schemas. -/
abbrev TableState := List (TableId × List SchemaField)

/-- Failures `client.get_table` can raise. -/
inductive RemoteError where
  | notFound
  | transport
  | authFailure
deriving DecidableEq

def hasTable (tables : TableState) (t : TableId) : Bool :=
  tables.any (fun e => decide (e.1 = t))

/-- `client.get_table(table_ref)`: succeeds when the table exists and
the transport is healthy; raises `NotFound` for a missing table; a
network/auth fault (`net = some e`) raises before the lookup happens. -/
def get_table (tables : TableState) (net : Option RemoteError) (t : TableId) :
    Except RemoteError Unit :=
  match net with
  | some e => Except.error e
  | none => if hasTable tables t then Except.ok () else Except.error RemoteError.notFound

/-- `BigQuery.check_table`: `try: get_table; return True except Exception:
return False`.  Total — the bare `except` swallows every exception. -/
def check_table (lookup : Except RemoteError Unit) : Bool :=
  match lookup with
  | Except.ok _ => true
  | Except.error _ => false

/-- `BigQuery.create_table`: records the table with the given schema. -/
def create_table (tables : TableState) (t : TableId) (schema : List SchemaField) :
    TableState :=
  (t, schema) :: tables

/-- The ensure-table step of `load_data_bigquery` (lines 173-176):
`if not check_table(...): create_table(...)`.  Returns the new table
state and the number of creation calls performed. -/
def ensure_table (tables : TableState) (net : Option RemoteError) (t : TableId)
    (schema : List SchemaField) : TableState × Nat :=
  if check_table (get_table tables net t) then (tables, 0)
  else (create_table tables t schema, 1)

/-! ## `insert_json` -/

inductive LogLevel where
  | info
  | error
deriving DecidableEq

/-- The log lines `insert_json` can emit, by shape. -/
inductive InsertLog (Err : Type) where
  | newRowsAdded (n : Nat)
  | encounteredError (errs : List Err)
  | errorOccured
  | noRowAdded

/-- `BigQuery.insert_json(table_id, item)`.  The remote
`insert_rows_json` call either raises (`Except.error`) or returns the
per-row error list.  The Python function has no `return` statement, so
the caller always receives `None` (second component); all reporting
goes to the logger.  Note the `try/except/else`: the `else` suite runs
whenever no exception was raised, logging `"No row added."` even after
a successful insert. -/
def insert_json {Row Err : Type} (table_id : String) (item : List Row)
    (remote : String → List Row → Except Unit (List Err)) :
    List (LogLevel × InsertLog Err) × Option (List Err) :=
  if item.length ≠ 0 then
    match remote table_id item with
    | Except.ok response =>
      let branchLog :=
        if response.isEmpty then [(LogLevel.info, InsertLog.newRowsAdded item.length)]
        else [(LogLevel.error, InsertLog.encounteredError response)]
      (branchLog ++ [(LogLevel.error, InsertLog.noRowAdded)], none)
    | Except.error _ => ([(LogLevel.error, InsertLog.errorOccured)], none)
  else ([], none)

/-! ## `newline_json` and `load_data_bigquery` -/

/-- `BigQuery.newline_json`: joins the `json.dumps` of each row with
newlines; `json.dumps` is the external serializer, a parameter. -/
def newline_json {Row : Type} (dumps : Row → String) (rows : List Row) : String :=
  String.intercalate "\n" (rows.map dumps)

/-- States of a BigQuery load job as observed through `job.state`. -/
inductive JobState where
  | submitted
  | running
  | done
deriving DecidableEq

/-- Observable actions of `load_data_bigquery`, in execution order. -/
inductive LoadEvent where
  | serialize (ndjson : String)
  | checkTable (t : TableId)
  | createTable (t : TableId)
  | submitJob (dest : String)
  | logInfo
  | reload
  | sleep (seconds : Nat)
deriving DecidableEq

/-- The `while job.state != "DONE"` polling loop.  `jobTrace k` is the
job state visible after `k` calls to `job.reload()`; each loop
iteration logs, reloads, and sleeps 2 seconds.  `fuel` bounds the
number of iterations we unfold; `none` means the loop has not
terminated within `fuel` iterations. -/
def pollJob (jobTrace : Nat → JobState) : Nat → Nat → Option (List LoadEvent)
  | k, 0 => if jobTrace k = JobState.done then some [] else none
  | k, fuel + 1 =>
    if jobTrace k = JobState.done then some []
    else
      (pollJob jobTrace (k + 1) fuel).map
        (fun evs => LoadEvent.logInfo :: LoadEvent.reload :: LoadEvent.sleep 2 :: evs)

/-- `BigQuery.load_data_bigquery(dataset_id, table_name, schema,
rows_to_insert)`: serializes the rows to newline-delimited JSON in
memory (lines 170-172), ensures the table exists (173-176), submits one
asynchronous load job (183-185), then polls `job.state` every 2 seconds
until `DONE` (186-189).  Returns the event trace and the resulting
table state, or `none` when the poll loop has not finished within
`fuel` iterations. -/
def load_data_bigquery {Row : Type} (dumps : Row → String) (tables : TableState)
    (net : Option RemoteError) (jobTrace : Nat → JobState)
    (dataset_id table_name : String) (schema : List SchemaField)
    (rows_to_insert : List Row) (fuel : Nat) :
    Option (List LoadEvent × TableState) :=
  let ndjson := newline_json dumps rows_to_insert
  let t : TableId := TableId.mk dataset_id table_name
  let tableFound := check_table (get_table tables net t)
  let tables1 := if tableFound then tables else create_table tables t schema
  let preEvents :=
    [LoadEvent.serialize ndjson, LoadEvent.checkTable t]
      ++ (if tableFound then [] else [LoadEvent.createTable t])
      ++ [LoadEvent.submitJob (dataset_id ++ "." ++ table_name)]
  match pollJob jobTrace 0 fuel with
  | none => none
  | some pollEvs => some (preEvents ++ pollEvs, tables1)

/-! ## `fetch_data_in_chunks` -/

/-- The effective query executed on one pull: the base query text with
`LIMIT @chunk_size OFFSET @offset` appended and the two scalar
parameters bound. -/
structure ExecutedQuery where
  base : String
  limit : Nat
  offset : Nat
deriving DecidableEq

inductive FetchOutcome where
  | closed
  | errored
  | outOfFuel
deriving DecidableEq

/-- Full observable behaviour of draining the generator: the queries
executed against the source in order, the batches yielded in order, and
how the sequence ended. -/
structure FetchTrace (Row : Type) where
  queries : List ExecutedQuery
  batches : List (List Row)
  outcome : FetchOutcome
deriving DecidableEq

/-- The `while more_data` loop of `fetch_data_in_chunks`.  `source
offset limit` is the remote execution of the base query with the given
LIMIT/OFFSET: it either raises (`Except.error`, which the generator
logs and re-raises, ending the sequence) or returns the batch.  An
empty batch sets `more_data = False`; a non-empty batch is yielded and
`offset` advances by `chunk_size`.  `fuel` bounds loop unfolding. -/
def fetch_data_in_chunks_go {Row : Type} (source : Nat → Nat → Except Unit (List Row))
    (query : String) (chunk_size : Nat) : Nat → Nat → FetchTrace Row
  | _offset, 0 => FetchTrace.mk [] [] FetchOutcome.outOfFuel
  | offset, fuel + 1 =>
    match source offset chunk_size with
    | Except.error _ =>
      FetchTrace.mk [ExecutedQuery.mk query chunk_size offset] [] FetchOutcome.errored
    | Except.ok df =>
      if df.isEmpty then
        FetchTrace.mk [ExecutedQuery.mk query chunk_size offset] [] FetchOutcome.closed
      else
        let rest := fetch_data_in_chunks_go source query chunk_size (offset + chunk_size) fuel
        FetchTrace.mk (ExecutedQuery.mk query chunk_size offset :: rest.queries)
          (df :: rest.batches) rest.outcome

/-- `BigQuery.fetch_data_in_chunks(query, chunk_size)` drained to
completion, starting from `offset = 0`. -/
def fetch_data_in_chunks {Row : Type} (source : Nat → Nat → Except Unit (List Row))
    (query : String) (chunk_size : Nat) (fuel : Nat) : FetchTrace Row :=
  fetch_data_in_chunks_go source query chunk_size 0 fuel

/-- A well-behaved logical row source backed by a fixed row list:
`LIMIT limit OFFSET offset` over `rows`, never failing. -/
def listSource {Row : Type} (rows : List Row) : Nat → Nat → Except Unit (List Row) :=
  fun offset limit => Except.ok ((rows.drop offset).take limit)

/-! ## `upload_to_gcs` URL rewriting -/

/-- Python's `str.replace(pat, rep)` on character lists: scan left to
right, replace each non-overlapping occurrence of `pat`.  `fuel` is
consumed one unit per examined position; `str_replace` supplies the
input length, which suffices. -/
def str_replace_go (pat rep : List Char) : Nat → List Char → List Char
  | 0, s => s
  | _ + 1, [] => []
  | fuel + 1, c :: rest =>
    if pat.isPrefixOf (c :: rest) then
      rep ++ str_replace_go pat rep fuel (rest.drop (pat.length - 1))
    else
      c :: str_replace_go pat rep fuel rest

def str_replace (pat rep s : List Char) : List Char :=
  str_replace_go pat rep s.length s

/-- Does `pat` occur as a contiguous sublist of `s`? -/
def containsSub (pat : List Char) : List Char → Bool
  | [] => pat.isEmpty
  | c :: rest => pat.isPrefixOf (c :: rest) || containsSub pat rest

def gcsApiHost : List Char := "storage.googleapis.com".toList

def gcsBrowseHost : List Char := "storage.cloud.google.com".toList

/-- The URL rewriting performed by `BigQuery.upload_to_gcs` on the
public URL reported by the storage service (lines 58-63):
`public_url.replace("storage.googleapis.com", "storage.cloud.google.com")`. -/
def upload_to_gcs_url (public_url : List Char) : List Char :=
  str_replace gcsApiHost gcsBrowseHost public_url

/-! ## Theorems -/

/-! ### Helper lemmas -/

theorem mem_setAdd (s : List SchemaField) (f x : SchemaField) :
    x ∈ setAdd s f ↔ x ∈ s ∨ x = f := by
  unfold setAdd
  by_cases h : f ∈ s
  · simp only [if_pos h]
    constructor
    · exact Or.inl
    · rintro (hx | rfl)
      · exact hx
      · exact h
  · simp [if_neg h, List.mem_append]

theorem goFold_mem (rest : List (String × PyVal)) :
    ∀ (acc : List SchemaField) (k : String) (ty : BQFieldType),
      SchemaField.mk k ty ∈ goFold rest acc
        ↔ SchemaField.mk k ty ∈ acc ∨ ∃ v, (k, v) ∈ rest ∧ branchType v = some ty := by
  induction rest with
  | nil =>
    intro acc k ty
    simp [goFold]
  | cons hd tl ih =>
    intro acc k ty
    obtain ⟨key, v⟩ := hd
    cases hbv : branchType v with
    | some ty' =>
      simp only [goFold, hbv]
      rw [ih]
      rw [mem_setAdd]
      constructor
      · rintro ((hacc | heq) | ⟨v', hv', hb'⟩)
        · exact Or.inl hacc
        · rcases SchemaField.mk.injEq _ _ _ _ ▸ heq with ⟨hk, hty⟩
          subst hk; subst hty
          exact Or.inr ⟨v, List.mem_cons_self _ _, hbv⟩
        · exact Or.inr ⟨v', List.mem_cons_of_mem _ hv', hb'⟩
      · rintro (hacc | ⟨v', hv', hb'⟩)
        · exact Or.inl (Or.inl hacc)
        · rcases List.mem_cons.mp hv' with heq | htl
          · rcases Prod.mk.injEq _ _ _ _ ▸ heq with ⟨hk, hv⟩
            subst hk; subst hv
            rw [hbv] at hb'
            injection hb' with hty
            subst hty
            exact Or.inl (Or.inr rfl)
          · exact Or.inr ⟨v', htl, hb'⟩
    | none =>
      simp only [goFold, hbv]
      rw [ih]
      constructor
      · rintro (hacc | ⟨v', hv', hb'⟩)
        · exact Or.inl hacc
        · exact Or.inr ⟨v', List.mem_cons_of_mem _ hv', hb'⟩
      · rintro (hacc | ⟨v', hv', hb'⟩)
        · exact Or.inl hacc
        · rcases List.mem_cons.mp hv' with heq | htl
          · rcases Prod.mk.injEq _ _ _ _ ▸ heq with ⟨hk, hv⟩
            subst hk; subst hv
            rw [hbv] at hb'
            exact absurd hb' (by simp)
          · exact Or.inr ⟨v', htl, hb'⟩

theorem create_go_some (rest : List (String × PyVal)) :
    ∀ (f : SchemaField) (acc : List SchemaField), f ∈ acc →
      create_bigqueryschema_go rest (some f) acc = Except.ok (goFold rest acc) := by
  induction rest with
  | nil =>
    intro f acc _
    rfl
  | cons hd tl ih =>
    intro f acc hf
    obtain ⟨key, v⟩ := hd
    cases hbv : branchType v with
    | some ty =>
      simp only [create_bigqueryschema_go, goFold, hbv]
      exact ih _ _ (by rw [mem_setAdd]; exact Or.inr rfl)
    | none =>
      simp only [create_bigqueryschema_go, goFold, hbv]
      have hsa : setAdd acc f = acc := by
        unfold setAdd
        rw [if_pos hf]
      rw [hsa]
      exact ih f acc hf

theorem keyUnique (l : List (String × PyVal)) (hnd : (l.map Prod.fst).Nodup) :
    ∀ k a b, (k, a) ∈ l → (k, b) ∈ l → a = b := by
  induction l with
  | nil =>
    intro k a b h
    simp at h
  | cons hd tl ih =>
    obtain ⟨k0, v0⟩ := hd
    simp only [List.map_cons, List.nodup_cons] at hnd
    intro k a b ha hb
    rcases List.mem_cons.mp ha with ha1 | ha2
    · rcases List.mem_cons.mp hb with hb1 | hb2
      · rcases Prod.mk.injEq _ _ _ _ ▸ ha1 with ⟨_, hva⟩
        rcases Prod.mk.injEq _ _ _ _ ▸ hb1 with ⟨_, hvb⟩
        rw [hva, hvb]
      · exfalso
        rcases Prod.mk.injEq _ _ _ _ ▸ ha1 with ⟨hk, _⟩
        apply hnd.1
        have := List.mem_map_of_mem Prod.fst hb2
        rw [← hk]
        exact this
    · rcases List.mem_cons.mp hb with hb1 | hb2
      · exfalso
        rcases Prod.mk.injEq _ _ _ _ ▸ hb1 with ⟨hk, _⟩
        apply hnd.1
        have := List.mem_map_of_mem Prod.fst ha2
        rw [← hk]
        exact this
      · exact ih hnd.2 k a b ha2 hb2

/-! ### C9 -/

/-- C9: `check_table` never raises (it is a total Boolean function): it
returns `true` exactly when the remote table lookup succeeds, and
returns the fixed default `false` when the lookup raises any exception
whatsoever — so with a healthy transport it reports existence, under a
transport/auth failure it reports `false`, and for an absent table the
healthy and failing outcomes are indistinguishable to the caller. -/
theorem claim_C9 (tables : TableState) (t : TableId) (e : RemoteError) :
    check_table (get_table tables none t) = hasTable tables t
    ∧ check_table (get_table tables (some e) t) = false
    ∧ (hasTable tables t = false →
        check_table (get_table tables none t) = check_table (get_table tables (some e) t)) := by
  refine ⟨?_, rfl, ?_⟩
  · by_cases h : hasTable tables t <;> simp [get_table, check_table, h]
  · intro h
    simp [get_table, check_table, h]

theorem claim_C9_witness :
    hasTable [] (⟨"ds", "users"⟩ : TableId) = false
    ∧ check_table (get_table [] none (⟨"ds", "users"⟩ : TableId))
        = check_table (get_table [] (some RemoteError.transport) (⟨"ds", "users"⟩ : TableId)) :=
  ⟨by decide,
   (claim_C9 [] (⟨"ds", "users"⟩ : TableId) RemoteError.transport).2.2 (by decide)⟩

/-! ### C6 -/

/-- C6: `ensureTable` is idempotent: starting from a state where the
table is absent (and with a healthy transport), the first call performs
exactly one remote creation call, recording the table with the given
schema, and the second call on the resulting state observes existence
and performs zero creation calls, leaving the state unchanged. -/
theorem claim_C6 (tables : TableState) (t : TableId) (schema : List SchemaField)
    (habs : hasTable tables t = false) :
    (ensure_table tables none t schema).2 = 1
    ∧ (t, schema) ∈ (ensure_table tables none t schema).1
    ∧ (ensure_table (ensure_table tables none t schema).1 none t schema).2 = 0
    ∧ (ensure_table (ensure_table tables none t schema).1 none t schema).1
        = (ensure_table tables none t schema).1 := by
  have h1 : ensure_table tables none t schema = (create_table tables t schema, 1) := by
    simp [ensure_table, get_table, check_table, habs]
  have h2 : hasTable (create_table tables t schema) t = true := by
    simp [hasTable, create_table]
  refine ⟨by rw [h1], by rw [h1]; exact List.mem_cons_self _ _, ?_, ?_⟩
  · rw [h1]
    simp [ensure_table, get_table, check_table, h2]
  · rw [h1]
    simp [ensure_table, get_table, check_table, h2]

theorem claim_C6_witness :
    hasTable [] (⟨"ds", "events"⟩ : TableId) = false
    ∧ (ensure_table [] none (⟨"ds", "events"⟩ : TableId) []).2 = 1
    ∧ ((⟨"ds", "events"⟩ : TableId), ([] : List SchemaField))
        ∈ (ensure_table [] none (⟨"ds", "events"⟩ : TableId) []).1
    ∧ (ensure_table (ensure_table [] none (⟨"ds", "events"⟩ : TableId) []).1 none
        (⟨"ds", "events"⟩ : TableId) []).2 = 0 :=
  ⟨by decide,
   (claim_C6 [] (⟨"ds", "events"⟩ : TableId) [] (by decide)).1,
   (claim_C6 [] (⟨"ds", "events"⟩ : TableId) [] (by decide)).2.1,
   (claim_C6 [] (⟨"ds", "events"⟩ : TableId) [] (by decide)).2.2.1⟩

/-! ### C10 -/

/-- C10: schema inference has a reachable error branch: a sample row
whose first field (in iteration order) holds a value of an unmapped
type — a float, or `None` — makes `create_bigqueryschema` raise
`UnboundLocalError` instead of returning a schema, because
`schema.add(query_schema)` executes on every iteration even when no
`isinstance` branch has assigned `query_schema`. -/
theorem claim_C10 :
    create_bigqueryschema [("x", PyVal.pyfloat)] = Except.error PyError.unboundLocalError
    ∧ create_bigqueryschema [("x", PyVal.pynone)] = Except.error PyError.unboundLocalError := by
  constructor <;> rfl

/-! ### C3 -/

/-- C3 counterexample: with one row and a remote call reporting exactly
one row-level error, `insert_json` does not return a result object
carrying that error list — the Python function has no `return`
statement, so the caller receives `None`; the error list goes only to
the logger (followed by the spurious `"No row added."` error line from
the `try/else`). -/
theorem claim_C3_counterexample :
    (insert_json ("t") [(0 : Nat)] (fun _ _ => Except.ok [("bad row")])).2 = none
    ∧ (insert_json ("t") [(0 : Nat)] (fun _ _ => Except.ok [("bad row")])).1
        = [(LogLevel.error, InsertLog.encounteredError [("bad row")]),
           (LogLevel.error, InsertLog.noRowAdded)] := by
  constructor <;> rfl

/-- C3 (amended): for every table id and non-empty row list,
`insert_json` never raises and always returns `None` to the caller; the
per-row error list is reported only through the logger: when the remote
call reports a non-empty error list the function logs exactly that list
at error level (plus the unconditional `"No row added."` error line),
when it reports zero errors the function logs success at info level,
and when the remote call raises, the exception is swallowed and logged. -/
theorem claim_C3 {Row Err : Type} (table_id : String) (item : List Row)
    (remote : String → List Row → Except Unit (List Err)) (hne : item ≠ []) :
    (insert_json table_id item remote).2 = none
    ∧ (∀ errs, remote table_id item = Except.ok errs → errs ≠ [] →
        (insert_json table_id item remote).1
          = [(LogLevel.error, InsertLog.encounteredError errs),
             (LogLevel.error, InsertLog.noRowAdded)])
    ∧ (remote table_id item = Except.ok [] →
        (insert_json table_id item remote).1
          = [(LogLevel.info, InsertLog.newRowsAdded item.length),
             (LogLevel.error, InsertLog.noRowAdded)])
    ∧ (∀ ex, remote table_id item = Except.error ex →
        (insert_json table_id item remote).1
          = [(LogLevel.error, InsertLog.errorOccured)]) := by
  have hlen : item.length ≠ 0 := by
    intro h0
    exact hne (List.length_eq_zero.mp h0)
  refine ⟨?_, ?_, ?_, ?_⟩
  · unfold insert_json
    rw [if_pos hlen]
    cases remote table_id item <;> simp
  · intro errs hok hne2
    unfold insert_json
    rw [if_pos hlen, hok]
    have : errs.isEmpty = false := by
      cases errs with
      | nil => exact absurd rfl hne2
      | cons e es => rfl
    simp [this]
  · intro hok
    unfold insert_json
    rw [if_pos hlen, hok]
    simp
  · intro ex hraise
    unfold insert_json
    rw [if_pos hlen, hraise]

theorem claim_C3_witness :
    ([(1 : Nat), 2] : List Nat) ≠ []
    ∧ (insert_json ("tbl") [(1 : Nat), 2] (fun _ _ => Except.ok [("boom")])).2 = none
    ∧ (insert_json ("tbl") [(1 : Nat), 2] (fun _ _ => Except.ok [("boom")])).1
        = [(LogLevel.error, InsertLog.encounteredError [("boom")]),
           (LogLevel.error, InsertLog.noRowAdded)] :=
  ⟨by decide,
   (claim_C3 ("tbl") [(1 : Nat), 2] (fun _ _ => Except.ok [("boom")]) (by decide)).1,
   (claim_C3 ("tbl") [(1 : Nat), 2] (fun _ _ => Except.ok [("boom")]) (by decide)).2.1
     [("boom")] rfl (by decide)⟩

/-! ### C4 -/

/-- C4 counterexample: the claim is false on two points.  A boolean
field is not dropped: Python's `bool` is a subclass of `int`, so
`isinstance(True, int)` holds and the field maps to INTEGER.  And when
the unmapped field (a float) comes first in iteration order, the call
raises `UnboundLocalError` instead of returning a schema with the field
absent. -/
theorem claim_C4_counterexample :
    create_bigqueryschema [("flag", PyVal.pybool true)]
      = Except.ok [SchemaField.mk ("flag") BQFieldType.INTEGER]
    ∧ create_bigqueryschema [("price", PyVal.pyfloat), ("id", PyVal.pyint 1)]
      = Except.error PyError.unboundLocalError := by
  constructor <;> rfl

/-- C4 (amended): when the first field of the sample row is of a mapped
type, `create_bigqueryschema` returns a schema in which a field named
`k` with type `ty` is present exactly when the row has a value `v` at
`k` with `branchType v = some ty` — i.e. `str`/`dict`/`list`/`tuple`
values map to STRING, and `int` values *including booleans* map to
INTEGER; consequently (for unique keys) a field of unmapped type, e.g.
a float or `None`, is absent from the schema.  (If the first field is
unmapped the call instead raises `UnboundLocalError`.) -/
theorem claim_C4 (k0 : String) (v0 : PyVal) (rest : List (String × PyVal))
    (ty0 : BQFieldType) (hb0 : branchType v0 = some ty0) :
    ∃ s, create_bigqueryschema ((k0, v0) :: rest) = Except.ok s
      ∧ (∀ k ty, SchemaField.mk k ty ∈ s
          ↔ ∃ v, (k, v) ∈ (k0, v0) :: rest ∧ branchType v = some ty)
      ∧ ((((k0, v0) :: rest).map Prod.fst).Nodup →
          ∀ k v, (k, v) ∈ (k0, v0) :: rest → branchType v = none →
            ∀ ty, SchemaField.mk k ty ∉ s) := by
  refine ⟨goFold rest [SchemaField.mk k0 ty0], ?_, ?_, ?_⟩
  · unfold create_bigqueryschema
    simp only [create_bigqueryschema_go, hb0]
    have hstart : setAdd [] (SchemaField.mk k0 ty0) = [SchemaField.mk k0 ty0] := rfl
    rw [hstart]
    exact create_go_some rest _ _ (List.mem_singleton.mpr rfl)
  · intro k ty
    rw [goFold_mem]
    constructor
    · rintro (hhd | ⟨v', hv', hb'⟩)
      · rcases SchemaField.mk.injEq _ _ _ _ ▸ List.mem_singleton.mp hhd with ⟨hk, hty⟩
        subst hk
        subst hty
        exact ⟨v0, List.mem_cons_self _ _, hb0⟩
      · exact ⟨v', List.mem_cons_of_mem _ hv', hb'⟩
    · rintro ⟨v', hv', hb'⟩
      rcases List.mem_cons.mp hv' with heq | htl
      · rcases Prod.mk.injEq _ _ _ _ ▸ heq with ⟨hk, hv⟩
        subst hk
        subst hv
        rw [hb0] at hb'
        injection hb' with hty
        subst hty
        exact Or.inl (List.mem_singleton.mpr rfl)
      · exact Or.inr ⟨v', htl, hb'⟩
  · intro hnd k v hkv hunmapped ty hmem
    rw [goFold_mem] at hmem
    rcases hmem with hhd | ⟨v', hv', hb'⟩
    · rcases SchemaField.mk.injEq _ _ _ _ ▸ List.mem_singleton.mp hhd with ⟨hk, _⟩
      subst hk
      have : v = v0 := keyUnique _ hnd k v v0 hkv (List.mem_cons_self _ _)
      rw [this, hb0] at hunmapped
      exact absurd hunmapped (by simp)
    · have : v = v' := keyUnique _ hnd k v v' hkv (List.mem_cons_of_mem _ hv')
      rw [this, hb'] at hunmapped
      exact absurd hunmapped (by simp)

theorem claim_C4_witness :
    branchType (PyVal.pyint 5) = some BQFieldType.INTEGER
    ∧ ∃ s,
      create_bigqueryschema [("id", PyVal.pyint 5), ("name", PyVal.pystr ("x")),
          ("price", PyVal.pyfloat)] = Except.ok s
      ∧ (∀ k ty, SchemaField.mk k ty ∈ s
          ↔ ∃ v, (k, v) ∈ [("id", PyVal.pyint 5), ("name", PyVal.pystr ("x")),
              ("price", PyVal.pyfloat)] ∧ branchType v = some ty)
      ∧ (([("id", PyVal.pyint 5), ("name", PyVal.pystr ("x")),
            ("price", PyVal.pyfloat)].map Prod.fst).Nodup →
          ∀ k v, (k, v) ∈ [("id", PyVal.pyint 5), ("name", PyVal.pystr ("x")),
              ("price", PyVal.pyfloat)] → branchType v = none →
            ∀ ty, SchemaField.mk k ty ∉ s) :=
  ⟨rfl,
   claim_C4 ("id") (PyVal.pyint 5)
     [("name", PyVal.pystr ("x")), ("price", PyVal.pyfloat)] BQFieldType.INTEGER rfl⟩

/-! ### C1 -/

theorem fetch_go_listSource {Row : Type} (rows : List Row) (q : String) (c : Nat)
    (hc : 0 < c) :
    ∀ (fuel offset : Nat), rows.length - offset < fuel →
      (fetch_data_in_chunks_go (listSource rows) q c offset fuel).outcome = FetchOutcome.closed
      ∧ (fetch_data_in_chunks_go (listSource rows) q c offset fuel).queries.length
          = (fetch_data_in_chunks_go (listSource rows) q c offset fuel).batches.length + 1
      ∧ (∀ i, i < (fetch_data_in_chunks_go (listSource rows) q c offset fuel).queries.length →
          (fetch_data_in_chunks_go (listSource rows) q c offset fuel).queries[i]?
            = some (ExecutedQuery.mk q c (offset + c * i)))
      ∧ (∀ i, i < (fetch_data_in_chunks_go (listSource rows) q c offset fuel).batches.length →
          (fetch_data_in_chunks_go (listSource rows) q c offset fuel).batches[i]?
            = some ((rows.drop (offset + c * i)).take c))
      ∧ (∀ b ∈ (fetch_data_in_chunks_go (listSource rows) q c offset fuel).batches, b ≠ []) := by
  intro fuel
  induction fuel with
  | zero =>
    intro offset h
    omega
  | succ fuel ih =>
    intro offset h
    by_cases hemp : ((rows.drop offset).take c).isEmpty = true
    · have hgo : fetch_data_in_chunks_go (listSource rows) q c offset (fuel + 1)
          = FetchTrace.mk [ExecutedQuery.mk q c offset] [] FetchOutcome.closed := by
        simp [fetch_data_in_chunks_go, listSource, hemp]
      rw [hgo]
      refine ⟨rfl, rfl, ?_, ?_, ?_⟩
      · intro i hi
        have hi0 : i = 0 := by
          simp at hi
          omega
        subst hi0
        simp
      · intro i hi
        simp at hi
      · intro b hb
        simp at hb
    · have hemp' : ((rows.drop offset).take c).isEmpty = false := by
        rw [Bool.eq_false_iff]
        exact hemp
      have hne : (rows.drop offset).take c ≠ [] := by
        intro h0
        rw [h0] at hemp'
        simp at hemp'
      have hofflt : offset < rows.length := by
        by_contra hge
        push_neg at hge
        have hdrop : rows.drop offset = [] := List.drop_eq_nil_of_le hge
        rw [hdrop] at hne
        simp at hne
      have hrec : rows.length - (offset + c) < fuel := by omega
      obtain ⟨ho, hlen, hq, hb, hbne⟩ := ih (offset + c) hrec
      have hgo : fetch_data_in_chunks_go (listSource rows) q c offset (fuel + 1)
          = FetchTrace.mk
              (ExecutedQuery.mk q c offset
                :: (fetch_data_in_chunks_go (listSource rows) q c (offset + c) fuel).queries)
              ((rows.drop offset).take c
                :: (fetch_data_in_chunks_go (listSource rows) q c (offset + c) fuel).batches)
              (fetch_data_in_chunks_go (listSource rows) q c (offset + c) fuel).outcome := by
        simp [fetch_data_in_chunks_go, listSource, hemp']
      rw [hgo]
      refine ⟨ho, by simp [hlen], ?_, ?_, ?_⟩
      · intro i hi
        cases i with
        | zero =>
          simp
        | succ i =>
          simp only [List.getElem?_cons_succ]
          simp only [List.length_cons] at hi
          have := hq i (by omega)
          rw [this]
          have harith : offset + c + c * i = offset + c * (i + 1) := by
            rw [Nat.mul_succ]
            omega
          rw [harith]
      · intro i hi
        cases i with
        | zero =>
          simp
        | succ i =>
          simp only [List.getElem?_cons_succ]
          simp only [List.length_cons] at hi
          have := hb i (by omega)
          rw [this]
          have harith : offset + c + c * i = offset + c * (i + 1) := by
            rw [Nat.mul_succ]
            omega
          rw [harith]
      · intro b hbmem
        rcases List.mem_cons.mp hbmem with hb1 | hb2
        · rw [hb1]
          exact hne
        · exact hbne b hb2

/-- C1: against a well-behaved logical row source and with a positive
chunk size, draining `fetch_data_in_chunks` gives a trace in which the
`i`-th executed query is the base query with `LIMIT chunk_size OFFSET
(chunk_size * i)` — so the offset always equals the chunk size times
the number of batches already yielded, advancing by `chunk_size` after
each successful (non-empty) pull; every yielded batch is the
corresponding non-empty slice of the source; the sequence closes at the
first empty pull (exactly one more query than yielded batches); and on
an empty source zero batches are yielded. -/
theorem claim_C1 (Row : Type) (q : String) (c : Nat) (rows : List Row) (hc : 0 < c) :
    (fetch_data_in_chunks (listSource rows) q c (rows.length + 1)).outcome
        = FetchOutcome.closed
    ∧ (fetch_data_in_chunks (listSource rows) q c (rows.length + 1)).queries.length
        = (fetch_data_in_chunks (listSource rows) q c (rows.length + 1)).batches.length + 1
    ∧ (∀ i, i < (fetch_data_in_chunks (listSource rows) q c (rows.length + 1)).queries.length →
        (fetch_data_in_chunks (listSource rows) q c (rows.length + 1)).queries[i]?
          = some (ExecutedQuery.mk q c (c * i)))
    ∧ (∀ i, i < (fetch_data_in_chunks (listSource rows) q c (rows.length + 1)).batches.length →
        (fetch_data_in_chunks (listSource rows) q c (rows.length + 1)).batches[i]?
          = some ((rows.drop (c * i)).take c))
    ∧ (∀ b ∈ (fetch_data_in_chunks (listSource rows) q c (rows.length + 1)).batches, b ≠ [])
    ∧ (rows = [] → (fetch_data_in_chunks (listSource rows) q c (rows.length + 1)).batches = []) := by
  obtain ⟨ho, hlen, hq, hb, hbne⟩ :=
    fetch_go_listSource rows q c hc (rows.length + 1) 0 (by omega)
  unfold fetch_data_in_chunks
  refine ⟨ho, hlen, ?_, ?_, hbne, ?_⟩
  · intro i hi
    have := hq i hi
    rwa [Nat.zero_add] at this
  · intro i hi
    have := hb i hi
    rwa [Nat.zero_add] at this
  · intro hrows
    cases hbat : (fetch_data_in_chunks_go (listSource rows) q c 0 (rows.length + 1)).batches with
    | nil => rfl
    | cons x xs =>
      exfalso
      have h0 : (fetch_data_in_chunks_go (listSource rows) q c 0 (rows.length + 1)).batches[0]?
          = some ((rows.drop (0 + c * 0)).take c) := hb 0 (by rw [hbat]; simp)
      rw [hbat] at h0
      simp only [List.getElem?_cons_zero] at h0
      injection h0 with h0
      have hxne : x ≠ [] := hbne x (by rw [hbat]; exact List.mem_cons_self _ _)
      apply hxne
      rw [h0, hrows]
      simp

theorem claim_C1_witness :
    0 < 2
    ∧ (fetch_data_in_chunks (listSource [1, 2, 3]) ("SELECT 1") 2 4).outcome
        = FetchOutcome.closed
    ∧ (fetch_data_in_chunks (listSource [1, 2, 3]) ("SELECT 1") 2 4).queries.length
        = (fetch_data_in_chunks (listSource [1, 2, 3]) ("SELECT 1") 2 4).batches.length + 1 :=
  ⟨by decide,
   (claim_C1 Nat ("SELECT 1") 2 [1, 2, 3] (by decide)).1,
   (claim_C1 Nat ("SELECT 1") 2 [1, 2, 3] (by decide)).2.1⟩

/-! ### C2 -/

/-- C2 counterexample: draining `fetch_data_in_chunks` with chunk size
2 over a 5-row source executes 4 queries, not 3: after yielding the
third (short) batch the generator cannot know the source is exhausted,
so a 4th query (OFFSET 6) runs and returns the empty batch that
terminates the loop.  The claim's "stops without executing a 4th query
call" is false. -/
theorem claim_C2_counterexample :
    (fetch_data_in_chunks (listSource [10, 20, 30, 40, 50]) ("SELECT v FROM t") 2 6).queries.length
      = 4 := by
  rfl

/-- C2 (amended): with chunk size 2 over a 5-row logical source the
generator yields exactly three batches, of sizes 2, 2 and 1, and then
closes — but termination costs one further query execution: four
queries run in total, at offsets 0, 2, 4 and 6, the last returning the
empty batch that stops the loop. -/
theorem claim_C2 (Row : Type) (q : String) (r1 r2 r3 r4 r5 : Row) :
    fetch_data_in_chunks (listSource [r1, r2, r3, r4, r5]) q 2 6
      = FetchTrace.mk
          [ExecutedQuery.mk q 2 0, ExecutedQuery.mk q 2 2,
           ExecutedQuery.mk q 2 4, ExecutedQuery.mk q 2 6]
          [[r1, r2], [r3, r4], [r5]] FetchOutcome.closed := by
  rfl

/-! ### C8 -/

theorem fetch_go_error {Row : Type} (source : Nat → Nat → Except Unit (List Row))
    (q : String) (c : Nat) :
    ∀ (k offset fuel : Nat) (bs : Nat → List Row),
      (∀ i, i < k → source (offset + c * i) c = Except.ok (bs i)) →
      (∀ i, i < k → bs i ≠ []) →
      source (offset + c * k) c = Except.error () →
      k < fuel →
      fetch_data_in_chunks_go source q c offset fuel
        = FetchTrace.mk
            ((List.range (k + 1)).map (fun i => ExecutedQuery.mk q c (offset + c * i)))
            ((List.range k).map bs) FetchOutcome.errored := by
  intro k
  induction k with
  | zero =>
    intro offset fuel bs _ _ herr hfuel
    obtain ⟨f, rfl⟩ : ∃ f, fuel = f + 1 := ⟨fuel - 1, by omega⟩
    rw [Nat.mul_zero, Nat.add_zero] at herr
    simp [fetch_data_in_chunks_go, herr, List.range_succ, List.range_zero]
  | succ k ih =>
    intro offset fuel bs hok hne herr hfuel
    obtain ⟨f, rfl⟩ : ∃ f, fuel = f + 1 := ⟨fuel - 1, by omega⟩
    have h0 : source offset c = Except.ok (bs 0) := by
      have := hok 0 (Nat.succ_pos k)
      rwa [Nat.mul_zero, Nat.add_zero] at this
    have h0ne : (bs 0).isEmpty = false := by
      have hb0 := hne 0 (Nat.succ_pos k)
      cases hbs : bs 0 with
      | nil => exact absurd hbs hb0
      | cons x xs => rfl
    have hok' : ∀ i, i < k → source (offset + c + c * i) c = Except.ok (bs (i + 1)) := by
      intro i hi
      have := hok (i + 1) (by omega)
      rwa [Nat.mul_succ, show offset + (c * i + c) = offset + c + c * i by omega] at this
    have hne' : ∀ i, i < k → bs (i + 1) ≠ [] := by
      intro i hi
      exact hne (i + 1) (by omega)
    have herr' : source (offset + c + c * k) c = Except.error () := by
      rwa [Nat.mul_succ, show offset + (c * k + c) = offset + c + c * k by omega] at herr
    have hrec := ih (offset + c) f (fun i => bs (i + 1)) hok' hne' herr' (by omega)
    have hgo : fetch_data_in_chunks_go source q c offset (f + 1)
        = FetchTrace.mk
            (ExecutedQuery.mk q c offset
              :: (fetch_data_in_chunks_go source q c (offset + c) f).queries)
            (bs 0 :: (fetch_data_in_chunks_go source q c (offset + c) f).batches)
            (fetch_data_in_chunks_go source q c (offset + c) f).outcome := by
      simp [fetch_data_in_chunks_go, h0, h0ne]
    rw [hgo, hrec]
    have harith : ∀ x : Nat, offset + c * (x + 1) = offset + c + c * x := by
      intro x
      rw [Nat.mul_succ]
      omega
    have hquery : (List.range (k + 1 + 1)).map (fun i => ExecutedQuery.mk q c (offset + c * i))
        = ExecutedQuery.mk q c offset
          :: (List.range (k + 1)).map (fun i => ExecutedQuery.mk q c (offset + c + c * i)) := by
      rw [List.range_succ_eq_map]
      simp only [List.map_cons, List.map_map, Nat.mul_zero, Nat.add_zero]
      have htail : (List.range (k + 1)).map ((fun i => ExecutedQuery.mk q c (offset + c * i)) ∘ Nat.succ)
          = (List.range (k + 1)).map (fun i => ExecutedQuery.mk q c (offset + c + c * i)) := by
        apply List.map_congr_left
        intro x _
        simp only [Function.comp_apply, Nat.succ_eq_add_one, harith x]
      rw [htail]
    have hbatch : (List.range (k + 1)).map bs
        = bs 0 :: (List.range k).map (fun i => bs (i + 1)) := by
      rw [List.range_succ_eq_map]
      simp only [List.map_cons, List.map_map]
      have htail : (List.range k).map (bs ∘ Nat.succ)
          = (List.range k).map (fun i => bs (i + 1)) := by
        apply List.map_congr_left
        intro x _
        rfl
      rw [htail]
    rw [hquery, hbatch]

/-- C8: if the `k`-th pull's query execution fails, the error
propagates (the trace ends `errored` — the generator logs and
re-raises, it does not swallow), the sequence aborts with no further
queries (exactly `k + 1` queries ran, the failing one last), and the
`k` batches already yielded to the caller before the failing pull
remain as delivered. -/
theorem claim_C8 (Row : Type) (source : Nat → Nat → Except Unit (List Row)) (q : String)
    (c k fuel : Nat) (bs : Nat → List Row)
    (hok : ∀ i, i < k → source (c * i) c = Except.ok (bs i))
    (hne : ∀ i, i < k → bs i ≠ [])
    (herr : source (c * k) c = Except.error ())
    (hfuel : k < fuel) :
    fetch_data_in_chunks source q c fuel
      = FetchTrace.mk
          ((List.range (k + 1)).map (fun i => ExecutedQuery.mk q c (c * i)))
          ((List.range k).map bs) FetchOutcome.errored := by
  unfold fetch_data_in_chunks
  have hmain := fetch_go_error source q c k 0 fuel bs
    (by intro i hi; rw [Nat.zero_add]; exact hok i hi)
    hne (by rwa [Nat.zero_add]) hfuel
  rw [hmain]
  congr 1
  apply List.map_congr_left
  intro x _
  rw [Nat.zero_add]

theorem claim_C8_witness :
    fetch_data_in_chunks
        (fun off _ => if off = 0 then Except.ok [7, 8] else Except.error ()) ("SELECT") 2 3
      = FetchTrace.mk [ExecutedQuery.mk ("SELECT") 2 0, ExecutedQuery.mk ("SELECT") 2 2]
          [[7, 8]] FetchOutcome.errored :=
  claim_C8 Nat (fun off _ => if off = 0 then Except.ok [7, 8] else Except.error ())
    ("SELECT") 2 1 3 (fun _ => [7, 8])
    (by intro i hi
        have hi0 : i = 0 := by omega
        subst hi0
        rfl)
    (by intro i hi
        simp)
    rfl
    (by omega)

/-! ### C5 -/

theorem pollJob_never (jobTrace : Nat → JobState) (h : ∀ m, jobTrace m ≠ JobState.done) :
    ∀ (fuel k : Nat), pollJob jobTrace k fuel = none := by
  intro fuel
  induction fuel with
  | zero =>
    intro k
    simp [pollJob, h k]
  | succ fuel ih =>
    intro k
    simp [pollJob, h k, ih (k + 1)]

theorem pollJob_first_done (jobTrace : Nat → JobState) :
    ∀ (n k fuel : Nat), jobTrace (k + n) = JobState.done →
      (∀ j, j < n → jobTrace (k + j) ≠ JobState.done) → n ≤ fuel →
      pollJob jobTrace k fuel
        = some (List.flatten (List.replicate n
            [LoadEvent.logInfo, LoadEvent.reload, LoadEvent.sleep 2])) := by
  intro n
  induction n with
  | zero =>
    intro k fuel hdone _ _
    rw [Nat.add_zero] at hdone
    cases fuel with
    | zero => simp [pollJob, hdone]
    | succ f => simp [pollJob, hdone]
  | succ n ih =>
    intro k fuel hdone hbefore hle
    obtain ⟨f, rfl⟩ : ∃ f, fuel = f + 1 := ⟨fuel - 1, by omega⟩
    have hk : jobTrace k ≠ JobState.done := by
      have := hbefore 0 (Nat.succ_pos n)
      rwa [Nat.add_zero] at this
    have hd' : jobTrace (k + 1 + n) = JobState.done := by
      rw [show k + 1 + n = k + (n + 1) by omega]
      exact hdone
    have hb' : ∀ j, j < n → jobTrace (k + 1 + j) ≠ JobState.done := by
      intro j hj
      rw [show k + 1 + j = k + (j + 1) by omega]
      exact hbefore (j + 1) (by omega)
    have hrec := ih (k + 1) f hd' hb' (by omega)
    simp [pollJob, hk, hrec, List.replicate_succ]

theorem pollJob_succ (jobTrace : Nat → JobState) (k fuel : Nat) :
    pollJob jobTrace k (fuel + 1)
      = if jobTrace k = JobState.done then some []
        else (pollJob jobTrace (k + 1) fuel).map
          (fun evs => LoadEvent.logInfo :: LoadEvent.reload :: LoadEvent.sleep 2 :: evs) :=
  rfl

theorem pollJob_some_done (jobTrace : Nat → JobState) :
    ∀ (fuel k : Nat) (evs : List LoadEvent), pollJob jobTrace k fuel = some evs →
      ∃ n, n ≤ fuel ∧ jobTrace (k + n) = JobState.done := by
  intro fuel
  induction fuel with
  | zero =>
    intro k evs h
    by_cases hk : jobTrace k = JobState.done
    · exact ⟨0, Nat.le_refl 0, by rwa [Nat.add_zero]⟩
    · simp [pollJob, hk] at h
  | succ fuel ih =>
    intro k evs h
    by_cases hk : jobTrace k = JobState.done
    · exact ⟨0, Nat.zero_le _, by rwa [Nat.add_zero]⟩
    · rw [pollJob_succ, if_neg hk] at h
      obtain ⟨evs', h', _⟩ := Option.map_eq_some'.mp h
      obtain ⟨n, hn, hd⟩ := ih (k + 1) evs' h'
      refine ⟨n + 1, by omega, ?_⟩
      rw [show k + (n + 1) = k + 1 + n by omega]
      exact hd

/-- C5: `load_data_bigquery` serializes the rows to newline-delimited
JSON in an in-memory buffer, performs the table-existence check (and,
if absent, the creation) before submitting exactly one asynchronous
load job, and then returns only after the job state observed via
`job.reload()` is DONE, sleeping a fixed 2 seconds on every iteration
of the poll loop.  There is no timeout and no cancellation: if the job
trace never reaches DONE, the call returns for no amount of fuel (the
loop never exits), and whenever the call does return, the job state
reached DONE within the polled reload sequence; when DONE is first
observed after `n` reloads, the trace is exactly the setup events
followed by `n` repetitions of log/reload/sleep-2. -/
theorem claim_C5 (Row : Type) (dumps : Row → String) (tables : TableState)
    (net : Option RemoteError) (jobTrace : Nat → JobState) (dataset_id table_name : String)
    (schema : List SchemaField) (rows : List Row) :
    ((∀ m, jobTrace m ≠ JobState.done) →
      ∀ fuel, load_data_bigquery dumps tables net jobTrace dataset_id table_name schema rows fuel
        = none)
    ∧ (∀ fuel out,
        load_data_bigquery dumps tables net jobTrace dataset_id table_name schema rows fuel
          = some out →
        ∃ n, n ≤ fuel ∧ jobTrace n = JobState.done)
    ∧ (∀ n fuel, jobTrace n = JobState.done → (∀ j, j < n → jobTrace j ≠ JobState.done) →
        n ≤ fuel →
        load_data_bigquery dumps tables net jobTrace dataset_id table_name schema rows fuel
          = some (
              [LoadEvent.serialize (newline_json dumps rows),
               LoadEvent.checkTable (TableId.mk dataset_id table_name)]
              ++ (if check_table (get_table tables net (TableId.mk dataset_id table_name)) then []
                  else [LoadEvent.createTable (TableId.mk dataset_id table_name)])
              ++ [LoadEvent.submitJob (dataset_id ++ "." ++ table_name)]
              ++ List.flatten (List.replicate n
                  [LoadEvent.logInfo, LoadEvent.reload, LoadEvent.sleep 2]),
              if check_table (get_table tables net (TableId.mk dataset_id table_name)) then tables
              else create_table tables (TableId.mk dataset_id table_name) schema)) := by
  refine ⟨?_, ?_, ?_⟩
  · intro hnever fuel
    unfold load_data_bigquery
    rw [pollJob_never jobTrace hnever fuel 0]
  · intro fuel out h
    unfold load_data_bigquery at h
    cases hp : pollJob jobTrace 0 fuel with
    | none =>
      rw [hp] at h
      simp at h
    | some evs =>
      obtain ⟨n, hn, hd⟩ := pollJob_some_done jobTrace fuel 0 evs hp
      rw [Nat.zero_add] at hd
      exact ⟨n, hn, hd⟩
  · intro n fuel hdone hbefore hle
    have hp := pollJob_first_done jobTrace n 0 fuel (by rwa [Nat.zero_add])
      (by intro j hj; rw [Nat.zero_add]; exact hbefore j hj) hle
    unfold load_data_bigquery
    rw [hp]

theorem claim_C5_witness :
    load_data_bigquery (fun n : Nat => toString n) [] none
        (fun m => if m < 2 then JobState.running else JobState.done) ("d") ("t") [] [1, 2] 5
      = some ([LoadEvent.serialize (newline_json (fun n : Nat => toString n) [1, 2]),
               LoadEvent.checkTable (TableId.mk ("d") ("t")),
               LoadEvent.createTable (TableId.mk ("d") ("t")),
               LoadEvent.submitJob ("d" ++ "." ++ "t"),
               LoadEvent.logInfo, LoadEvent.reload, LoadEvent.sleep 2,
               LoadEvent.logInfo, LoadEvent.reload, LoadEvent.sleep 2],
              [(TableId.mk ("d") ("t"), [])]) :=
  (claim_C5 Nat (fun n => toString n) [] none
      (fun m => if m < 2 then JobState.running else JobState.done) ("d") ("t") [] [1, 2]).2.2
    2 5 (by decide) (by decide) (by decide)

/-! ### C7 -/

theorem str_replace_go_no_occur (pat rep : List Char) :
    ∀ (fuel : Nat) (s : List Char), containsSub pat s = false →
      str_replace_go pat rep fuel s = s := by
  intro fuel
  induction fuel with
  | zero =>
    intro s _
    rfl
  | succ fuel ih =>
    intro s hno
    cases s with
    | nil => rfl
    | cons c rest =>
      unfold containsSub at hno
      rw [Bool.or_eq_false_iff] at hno
      unfold str_replace_go
      rw [if_neg (by simp [hno.1])]
      rw [ih rest hno.2]

theorem str_replace_go_seam (pat rep : List Char) (hpat : pat ≠ []) :
    ∀ (a b : List Char) (fuel : Nat),
      (∀ i, i < a.length → pat.isPrefixOf ((a ++ pat ++ b).drop i) = false) →
      containsSub pat b = false →
      (a ++ pat ++ b).length ≤ fuel →
      str_replace_go pat rep fuel (a ++ pat ++ b) = a ++ rep ++ b := by
  intro a
  induction a with
  | nil =>
    intro b fuel _ hnob hfuel
    obtain ⟨p, pt, rfl⟩ : ∃ p pt, pat = p :: pt := by
      cases pat with
      | nil => exact absurd rfl hpat
      | cons p pt => exact ⟨p, pt, rfl⟩
    obtain ⟨f, rfl⟩ : ∃ f, fuel = f + 1 := ⟨fuel - 1, by simp at hfuel; omega⟩
    have hblen : b.length ≤ f := by
      simp at hfuel
      omega
    simp only [List.nil_append, List.cons_append]
    unfold str_replace_go
    rw [if_pos ?hpre]
    case hpre =>
      rw [show p :: (pt ++ b) = (p :: pt) ++ b from rfl]
      rw [List.isPrefixOf_iff_prefix]
      exact List.prefix_append _ _
    have hdrop : (pt ++ b).drop ((p :: pt).length - 1) = b := by
      simp only [List.length_cons, Nat.add_sub_cancel]
      exact List.drop_left pt b
    rw [hdrop, str_replace_go_no_occur (p :: pt) rep f b hnob]
  | cons c a' iha =>
    intro b fuel hno hnob hfuel
    obtain ⟨f, rfl⟩ : ∃ f, fuel = f + 1 := ⟨fuel - 1, by simp at hfuel; omega⟩
    have h0 : pat.isPrefixOf ((c :: a') ++ pat ++ b) = false := by
      have := hno 0 (by simp)
      rwa [List.drop_zero] at this
    have h0' : pat.isPrefixOf (c :: (a' ++ pat ++ b)) = false := by
      have h0b := h0
      simp only [List.cons_append] at h0b
      exact h0b
    simp only [List.cons_append]
    unfold str_replace_go
    rw [if_neg (by rw [h0']; simp)]
    rw [iha b f ?_ hnob ?_]
    · intro i hi
      have := hno (i + 1) (by simp; omega)
      simp only [List.cons_append, List.drop_succ_cons] at this
      exact this
    · simp only [List.cons_append, List.length_cons] at hfuel
      simp only [List.length_append]
      simp only [List.length_append] at hfuel
      omega

/-- C7: the value returned by `upload_to_gcs` is the storage service's
public URL with the substring `storage.googleapis.com` replaced
verbatim by `storage.cloud.google.com` and every other character
unchanged: for a URL that decomposes as `a ++ host ++ b` with the host
occurring nowhere else, the result is exactly `a ++ newhost ++ b`, and
a URL not containing the host at all is returned untouched. -/
theorem claim_C7 (a b : List Char)
    (hno : ∀ i, i < a.length → gcsApiHost.isPrefixOf ((a ++ gcsApiHost ++ b).drop i) = false)
    (hnob : containsSub gcsApiHost b = false) :
    upload_to_gcs_url (a ++ gcsApiHost ++ b) = a ++ gcsBrowseHost ++ b
    ∧ ∀ url : List Char, containsSub gcsApiHost url = false → upload_to_gcs_url url = url := by
  constructor
  · unfold upload_to_gcs_url str_replace
    exact str_replace_go_seam gcsApiHost gcsBrowseHost (by decide) a b _ hno hnob
      (Nat.le_refl _)
  · intro url hu
    unfold upload_to_gcs_url str_replace
    exact str_replace_go_no_occur gcsApiHost gcsBrowseHost url.length url hu

theorem claim_C7_witness :
    (∀ i, i < ("https://".toList).length →
      gcsApiHost.isPrefixOf
        ((("https://".toList) ++ gcsApiHost ++ ("/bkt/obj.txt".toList)).drop i) = false)
    ∧ containsSub gcsApiHost ("/bkt/obj.txt".toList) = false
    ∧ upload_to_gcs_url (("https://".toList) ++ gcsApiHost ++ ("/bkt/obj.txt".toList))
        = ("https://".toList) ++ gcsBrowseHost ++ ("/bkt/obj.txt".toList) :=
  ⟨by decide, by decide,
   (claim_C7 ("https://".toList) ("/bkt/obj.txt".toList) (by decide) (by decide)).1⟩
